import Mathlib

/-!
Shallow embedding of the sync-job orchestration core of the elba-security
connectors: the per-page sync worker (`syncUsers`,
src/apps/monday/src/inngest/functions/users/sync-users.ts), the sync
scheduler (`scheduleUserSync`), and the failure-classifier middleware
(`unauthorizedMiddleware`, whose implementation is modelled from the spec
since only its test ships in the sources).

External collaborators (database credential lookup, remote page fetcher)
are parameters of the worker; the observable side effects (Sink upserts,
tombstone delete, continuation events) are reified as an explicit effect
list returned by each invocation.
-/

/-- A remote SaaS user as returned by the Monday connector
(`MondayUser` in src/connectors/users). -/
structure MondayUser where
  id : String
  name : String
  email : String
deriving DecidableEq, Repr

/-- A normalized elba user (`User` from the elba SDK). -/
structure ElbaUser where
  id : String
  displayName : String
  email : String
  additionalEmails : List String
deriving DecidableEq, Repr

/-- `formatElbaUser` from sync-users.ts: maps one Monday user to an elba
user, with an empty list of additional emails. -/
def formatElbaUser (user : MondayUser) : ElbaUser :=
  { id := user.id
    displayName := user.name
    email := user.email
    additionalEmails := [] }

/-- The event payload `SynchronizeUsers.data` of
`monday/users.page_sync.requested`: page cursors are `number | null`
(`Option Int`, `none` for `null`), `syncStartedAt` a numeric timestamp. -/
structure SyncPayload where
  organisationId : String
  region : String
  isFirstSync : Bool
  syncStartedAt : Int
  page : Option Int
deriving DecidableEq, Repr

/-- One page returned by `getUsers(token, page)`: the records under
`result.data.users` and the `result.nextPage` cursor (`number | null`). -/
structure FetchResult where
  users : List MondayUser
  nextPage : Option Int
deriving DecidableEq, Repr

/-- Observable side effects of one worker invocation: an
`elba.users.update` upsert batch, an `elba.users.delete` tombstone call
keyed by its `syncedBefore` watermark, or an inngest `sendEvent`
continuation carrying the next page's payload. -/
inductive Effect where
  | upsert (users : List ElbaUser)
  | deleteSyncedBefore (syncedBefore : Int)
  | sendEvt (name : String) (data : SyncPayload)
deriving DecidableEq, Repr

/-- Errors thrown by the worker; `NonRetriableError` from inngest is
terminal, never retried. -/
inductive SyncError where
  | nonRetriable (message : String)
deriving DecidableEq, Repr

/-- The external collaborators of one worker invocation: the credential
store row `Organisation.token` selected by organisation id, and the remote
page fetcher `getUsers`. -/
structure SyncEnv where
  organisationToken : String → Option String
  getUsers : String → Option Int → FetchResult

/-- JavaScript truthiness of the `number | null` cursor tested by
`if (nextPage)`: `null` and `0` are falsy, every other number is truthy. -/
def cursorTruthy : Option Int → Bool
  | none => false
  | some c => c ≠ 0

/-- One invocation of the inngest function `syncUsers`
(sync-users.ts, lines 53-112), as a function of its collaborators and the
event payload, returning the effect list and the reported status, or the
thrown error:
* `get-token`: select `Organisation.token` by id; if absent, throw a
  `NonRetriableError` before any fetch, upsert or delete;
* `list-users`: fetch the page; if `result.data.users.length > 0`, map
  through `formatElbaUser` and upsert the batch; keep `result.nextPage`;
* if `nextPage` is truthy, send one continuation event whose data spreads
  the incoming payload with `page := nextPage`, and report "ongoing";
* otherwise run `finalize`: delete users synced before `syncStartedAt`,
  and report "completed". -/
def syncUsers (env : SyncEnv) (eventData : SyncPayload) :
    Except SyncError (List Effect × String) :=
  match env.organisationToken eventData.organisationId with
  | none =>
      .error (.nonRetriable
        ("Could not retrieve organisation with id=" ++ eventData.organisationId))
  | some token =>
      let result := env.getUsers token eventData.page
      let upsertEffects : List Effect :=
        if result.users.length > 0 then
          [.upsert (result.users.map formatElbaUser)]
        else []
      if cursorTruthy result.nextPage then
        .ok (upsertEffects ++
          [.sendEvt ("monday/users.page_sync.requested")
            { eventData with page := result.nextPage }], "ongoing")
      else
        .ok (upsertEffects ++
          [.deleteSyncedBefore eventData.syncStartedAt], "completed")

/-- The upsert batches contained in an effect list, in order. -/
def upsertBatches : List Effect → List (List ElbaUser)
  | [] => []
  | .upsert us :: rest => us :: upsertBatches rest
  | _ :: rest => upsertBatches rest

/-- The `syncedBefore` watermarks of the delete calls in an effect list. -/
def deleteWatermarks : List Effect → List Int
  | [] => []
  | .deleteSyncedBefore t :: rest => t :: deleteWatermarks rest
  | _ :: rest => deleteWatermarks rest

/-- The payloads of the continuation events in an effect list. -/
def sentPayloads : List Effect → List SyncPayload
  | [] => []
  | .sendEvt _ d :: rest => d :: sentPayloads rest
  | _ :: rest => sentPayloads rest

/-- A whole logical sync driven by the inngest event loop: run one worker
invocation; whenever it emitted exactly one continuation event and fuel
remains, run the next invocation on that event's payload and concatenate
the effect lists. `fuel` only bounds the number of followed continuations;
the code itself has no such bound (each page is a separate invocation). -/
def runSync (env : SyncEnv) : Nat → SyncPayload → Except SyncError (List Effect × String)
  | 0, p => syncUsers env p
  | fuel + 1, p =>
      match syncUsers env p with
      | .error e => .error e
      | .ok (effs, st) =>
          match sentPayloads effs with
          | [next] =>
              match runSync env fuel next with
              | .error e => .error e
              | .ok (effs2, st2) => .ok (effs ++ effs2, st2)
          | _ => .ok (effs, st)

/-- The page index denoted by a cursor in the finite-pages model of the
remote API: `null` means the first page, a numeric cursor is the index. -/
def pageIndex : Option Int → Nat
  | none => 0
  | some c => c.toNat

/-- A remote API with a fixed finite list of pages: fetching with a cursor
returns that page's records, and the next-page cursor is the successor
index when another page exists, `null` otherwise. Successor cursors are
all positive, hence truthy. -/
def pagesFetch (pages : List (List MondayUser)) (cursor : Option Int) : FetchResult :=
  { users := pages.getD (pageIndex cursor) []
    nextPage :=
      if pageIndex cursor + 1 < pages.length then
        some ((pageIndex cursor + 1 : Nat) : Int)
      else none }

/-- Collaborators for a sync over a fixed finite list of remote pages,
with the organisation token present in the store. -/
def pagesEnv (token : String) (pages : List (List MondayUser)) : SyncEnv :=
  { organisationToken := fun _ => some token
    getUsers := fun _ cursor => pagesFetch pages cursor }

/-- An event emitted by the scheduler `scheduleUserSync`
(src/unnamed/part_002): the source's data literal sets `organisationId`,
`isFirstSync` and `syncStartedAt` and omits the `page` key; an absent key
reads as `undefined`, which every consumer treats exactly like `null`
(the first page), so absence is embedded as `page = none`. -/
structure ScheduleEvt where
  name : String
  organisationId : String
  isFirstSync : Bool
  syncStartedAt : Int
  page : Option Int
deriving DecidableEq, Repr

/-- The inngest cron function `scheduleUserSync` (src/unnamed/part_002):
reads the organisations to sync, takes `syncStartedAt := Date.now()`, and
when the list is non-empty sends one `dropbox/users.sync_page.triggered`
event per organisation, all sharing that timestamp; it returns
`{ organisations }`. The first component is the list of emitted events,
the second the returned report. -/
def scheduleUserSync (organisations : List String) (now : Int) :
    List ScheduleEvt × List String :=
  let events :=
    if organisations.length > 0 then
      organisations.map (fun organisationId =>
        { name := "dropbox/users.sync_page.triggered"
          organisationId := organisationId
          isFirstSync := false
          syncStartedAt := now
          page := none })
    else []
  (events, organisations)

/-- An error carried by a worker result before classification: an HTTP
error with its response status, or any other error. -/
inductive WorkerError where
  | http (status : Nat) (message : String)
  | other (message : String)
deriving DecidableEq, Repr

/-- An error as seen after the failure classifier: either the worker's
own error, untouched, or a terminal `NonRetriableError` wrapping the
original error as its cause. -/
inductive MwError where
  | fromWorker (e : WorkerError)
  | nonRetriable (message : String) (cause : WorkerError)
deriving DecidableEq, Repr

/-- The classifier's authorization-rejection test: an HTTP 401-equivalent
error from the remote API. -/
def isUnauthorizedError : WorkerError → Bool
  | .http 401 _ => true
  | _ => false

/-- Whether a worker result's (optional) error is an authorization
rejection: only an unclassified worker error with a 401 status is. -/
def errUnauthorized : Option MwError → Bool
  | some (.fromWorker e) => isUnauthorizedError e
  | _ => false

/-- The wrapped result of one worker invocation as the middleware sees
it: the function output data and the carried error, if any. -/
structure MwResult where
  data : String
  error : Option MwError
deriving DecidableEq, Repr

/-- Side effects of the failure classifier: the elba connection-status
update and the removal of the organisation row from the store. -/
inductive MwEffect where
  | connectionStatusUpdate (hasError : Bool)
  | removeOrganisation (organisationId : String)
deriving DecidableEq, Repr

/-- The message of the terminal error the classifier substitutes. -/
def unauthorizedMessage : String :=
  "Source organisation is unauthorized"

/-- Modelled from the spec: the implementation of
`unauthorizedMiddleware.transformOutput` is not among the sources (only
its test, src/unnamed/part_001, is). Per spec section 4.3 and the test's
expectations: when the carried error is an authorization rejection
(HTTP 401-equivalent), update the connection status with
`hasError = true`, remove the organisation record, and replace the error
by a terminal non-retriable error whose cause is the original error,
leaving the rest of the result unchanged; when the error is absent or not
an authorization rejection, pass the result through with no side
effects. -/
def transformOutput (organisationId : String) (result : MwResult) :
    MwResult × List MwEffect :=
  match result.error with
  | some (.fromWorker e) =>
      if isUnauthorizedError e then
        ({ result with error := some (.nonRetriable unauthorizedMessage e) },
         [.connectionStatusUpdate true, .removeOrganisation organisationId])
      else (result, [])
  | _ => (result, [])

/-- The configuration record of the inngest function `syncUsers`
(sync-users.ts, lines 41-51). -/
structure WorkerConfig where
  id : String
  priorityRun : String
  concurrencyKey : String
  concurrencyLimit : Nat
  retries : Nat
deriving DecidableEq, Repr

/-- The configuration passed to `inngest.createFunction` for the user
page sync worker. -/
def syncUsersConfig : WorkerConfig :=
  { id := "sync-users-page"
    priorityRun := "event.data.isFirstSync ? 600 : 0"
    concurrencyKey := "event.data.organisationId"
    concurrencyLimit := 1
    retries := 3 }

/-- One worker invocation in an execution trace of the dispatch layer,
active on the half-open time interval `[startAt, endAt)` and keyed by the
event's organisation id. -/
structure Invocation where
  organisationId : String
  startAt : Nat
  endAt : Nat
deriving DecidableEq, Repr

/-- Whether an invocation is active at instant `t`. -/
def Invocation.activeAt (inv : Invocation) (t : Nat) : Prop :=
  inv.startAt ≤ t ∧ t < inv.endAt

instance (inv : Invocation) (t : Nat) : Decidable (inv.activeAt t) :=
  inferInstanceAs (Decidable (inv.startAt ≤ t ∧ t < inv.endAt))

/-- The dispatch layer honours a keyed concurrency bound: at every
instant, for every key value, at most `limit` invocations with that
organisation id are active. -/
def respectsKeyedLimit (limit : Nat) (invs : List Invocation) : Prop :=
  ∀ (t : Nat) (oid : String),
    (Finset.univ.filter (fun i : Fin invs.length =>
      (invs.get i).organisationId = oid ∧ (invs.get i).activeAt t)).card ≤ limit

/-! ### Helper lemmas about effect-list projections -/

@[simp]
theorem upsertBatches_append (a b : List Effect) :
    upsertBatches (a ++ b) = upsertBatches a ++ upsertBatches b := by
  induction a with
  | nil => rfl
  | cons e rest ih => cases e <;> simp [upsertBatches, ih]

@[simp]
theorem deleteWatermarks_append (a b : List Effect) :
    deleteWatermarks (a ++ b) = deleteWatermarks a ++ deleteWatermarks b := by
  induction a with
  | nil => rfl
  | cons e rest ih => cases e <;> simp [deleteWatermarks, ih]

@[simp]
theorem sentPayloads_append (a b : List Effect) :
    sentPayloads (a ++ b) = sentPayloads a ++ sentPayloads b := by
  induction a with
  | nil => rfl
  | cons e rest ih => cases e <;> simp [sentPayloads, ih]

@[simp]
theorem upsertBatches_upsert (us : List ElbaUser) (rest : List Effect) :
    upsertBatches (.upsert us :: rest) = us :: upsertBatches rest := rfl

@[simp]
theorem upsertBatches_del (t : Int) (rest : List Effect) :
    upsertBatches (.deleteSyncedBefore t :: rest) = upsertBatches rest := rfl

@[simp]
theorem upsertBatches_send (n : String) (d : SyncPayload) (rest : List Effect) :
    upsertBatches (.sendEvt n d :: rest) = upsertBatches rest := rfl

@[simp]
theorem upsertBatches_nil : upsertBatches [] = [] := rfl

@[simp]
theorem deleteWatermarks_upsert (us : List ElbaUser) (rest : List Effect) :
    deleteWatermarks (.upsert us :: rest) = deleteWatermarks rest := rfl

@[simp]
theorem deleteWatermarks_del (t : Int) (rest : List Effect) :
    deleteWatermarks (.deleteSyncedBefore t :: rest) = t :: deleteWatermarks rest := rfl

@[simp]
theorem deleteWatermarks_send (n : String) (d : SyncPayload) (rest : List Effect) :
    deleteWatermarks (.sendEvt n d :: rest) = deleteWatermarks rest := rfl

@[simp]
theorem deleteWatermarks_nil : deleteWatermarks [] = [] := rfl

@[simp]
theorem sentPayloads_upsert (us : List ElbaUser) (rest : List Effect) :
    sentPayloads (.upsert us :: rest) = sentPayloads rest := rfl

@[simp]
theorem sentPayloads_del (t : Int) (rest : List Effect) :
    sentPayloads (.deleteSyncedBefore t :: rest) = sentPayloads rest := rfl

@[simp]
theorem sentPayloads_send (n : String) (d : SyncPayload) (rest : List Effect) :
    sentPayloads (.sendEvt n d :: rest) = d :: sentPayloads rest := rfl

@[simp]
theorem sentPayloads_nil : sentPayloads [] = [] := rfl

/-- Helper: a truthy cursor is a nonzero `some`. -/
theorem cursorTruthy_some (c : Int) (hc : c ≠ 0) : cursorTruthy (some c) = true := by
  simp [cursorTruthy, hc]

/-- Helper: the zero cursor is falsy. -/
theorem cursorTruthy_zero : cursorTruthy (some 0) = false := by
  simp [cursorTruthy]

/-- Unfolding `syncUsers` when the credential lookup succeeds. -/
theorem syncUsers_of_token (env : SyncEnv) (p : SyncPayload) (token : String)
    (htok : env.organisationToken p.organisationId = some token) :
    syncUsers env p =
      (if cursorTruthy (env.getUsers token p.page).nextPage then
        .ok ((if (env.getUsers token p.page).users.length > 0 then
            [.upsert ((env.getUsers token p.page).users.map formatElbaUser)]
          else []) ++
          [.sendEvt ("monday/users.page_sync.requested")
            { p with page := (env.getUsers token p.page).nextPage }], "ongoing")
      else
        .ok ((if (env.getUsers token p.page).users.length > 0 then
            [.upsert ((env.getUsers token p.page).users.map formatElbaUser)]
          else []) ++
          [.deleteSyncedBefore p.syncStartedAt], "completed")) := by
  unfold syncUsers
  rw [htok]

/-! ### Claim theorems: single worker invocations -/

/-- C6: a worker invocation whose organisation id has no credential row in
the store fails with the terminal non-retriable "organisation not found"
error; the thrown error carries no effects, so no page fetch, upsert or
delete has occurred. -/
theorem syncUsers_missing_organisation (env : SyncEnv) (p : SyncPayload)
    (h : env.organisationToken p.organisationId = none) :
    syncUsers env p = .error (.nonRetriable
      ("Could not retrieve organisation with id=" ++ p.organisationId)) := by
  unfold syncUsers
  rw [h]

/-- Witness for C6 at a concrete empty credential store. -/
theorem syncUsers_missing_organisation_witness :
    syncUsers ⟨fun _ => none, fun _ _ => ⟨[], none⟩⟩
      ⟨"org1", "eu", false, 0, none⟩ =
      .error (.nonRetriable ("Could not retrieve organisation with id=" ++ "org1")) :=
  syncUsers_missing_organisation _ _ rfl

/-- C2: a worker invocation whose page fetch returns a (truthy) next-page
cursor emits exactly one continuation event, whose payload has
`page := nextCursor` and every other field (organisationId, region,
isFirstSync, syncStartedAt) unchanged from the incoming payload, and the
invocation reports status "ongoing". The code decides continuation by the
truthiness of the returned cursor (`if (nextPage)`), so "returns a
next-page cursor" means a non-null, nonzero cursor; the falsy cursor `0`
is settled by the C10 theorem. -/
theorem syncUsers_continuation (env : SyncEnv) (p : SyncPayload) (token : String)
    (c : Int)
    (htok : env.organisationToken p.organisationId = some token)
    (hnext : (env.getUsers token p.page).nextPage = some c)
    (hc : c ≠ 0) :
    ∃ effs, syncUsers env p = .ok (effs, "ongoing") ∧
      sentPayloads effs =
        [{ organisationId := p.organisationId
           region := p.region
           isFirstSync := p.isFirstSync
           syncStartedAt := p.syncStartedAt
           page := some c }] := by
  refine ⟨(if (env.getUsers token p.page).users.length > 0 then
      [Effect.upsert ((env.getUsers token p.page).users.map formatElbaUser)]
    else []) ++
    [Effect.sendEvt ("monday/users.page_sync.requested")
      { p with page := some c }], ?_, ?_⟩
  · rw [syncUsers_of_token env p token htok, hnext, cursorTruthy_some c hc]
    simp
  · by_cases hus : (env.getUsers token p.page).users.length > 0 <;> simp [hus]

/-- Witness for C2 at a concrete environment returning cursor 2. -/
theorem syncUsers_continuation_witness :
    ∃ effs,
      syncUsers ⟨fun _ => some ("tok"), fun _ _ => ⟨[⟨"u1", "Nina", "n@x.io"⟩], some 2⟩⟩
        ⟨"org1", "eu", false, 5, none⟩ = .ok (effs, "ongoing") ∧
      sentPayloads effs = [⟨"org1", "eu", false, 5, some 2⟩] :=
  syncUsers_continuation _ _ ("tok") 2 rfl rfl (by decide)

/-- C10: when the fetcher returns the falsy-but-non-null cursor `0`
(admitted by the `number | null` page type), the worker treats it as the
absence of a next page: it emits no continuation event, runs the finalize
delete with `syncedBefore = syncStartedAt`, and reports "completed". -/
theorem syncUsers_zero_cursor (env : SyncEnv) (p : SyncPayload) (token : String)
    (htok : env.organisationToken p.organisationId = some token)
    (hnext : (env.getUsers token p.page).nextPage = some 0) :
    ∃ effs, syncUsers env p = .ok (effs, "completed") ∧
      sentPayloads effs = [] ∧
      deleteWatermarks effs = [p.syncStartedAt] := by
  refine ⟨(if (env.getUsers token p.page).users.length > 0 then
      [Effect.upsert ((env.getUsers token p.page).users.map formatElbaUser)]
    else []) ++
    [Effect.deleteSyncedBefore p.syncStartedAt], ?_, ?_, ?_⟩
  · rw [syncUsers_of_token env p token htok, hnext, cursorTruthy_zero]
    simp
  · by_cases hus : (env.getUsers token p.page).users.length > 0 <;> simp [hus]
  · by_cases hus : (env.getUsers token p.page).users.length > 0 <;> simp [hus]

/-- Witness for C10 at a concrete environment returning cursor 0. -/
theorem syncUsers_zero_cursor_witness :
    ∃ effs,
      syncUsers ⟨fun _ => some ("tok"), fun _ _ => ⟨[⟨"u1", "Nina", "n@x.io"⟩], some 0⟩⟩
        ⟨"org1", "eu", false, 5, none⟩ = .ok (effs, "completed") ∧
      sentPayloads effs = [] ∧
      deleteWatermarks effs = [5] :=
  syncUsers_zero_cursor _ _ ("tok") rfl rfl

/-- C7: the worker upserts the normalized batch if and only if the page's
record list is non-empty (an empty page produces no upsert call), and the
continuation/finalize decision — the reported status — is determined by
the next-page cursor alone, unaffected by whether the batch was empty. -/
theorem syncUsers_upsert_iff_nonempty (env : SyncEnv) (p : SyncPayload) (token : String)
    (htok : env.organisationToken p.organisationId = some token) :
    ∃ effs,
      syncUsers env p =
        .ok (effs,
          if cursorTruthy (env.getUsers token p.page).nextPage then ("ongoing")
          else ("completed")) ∧
      upsertBatches effs =
        (if (env.getUsers token p.page).users = [] then []
         else [(env.getUsers token p.page).users.map formatElbaUser]) := by
  cases hnp : cursorTruthy (env.getUsers token p.page).nextPage with
  | true =>
      refine ⟨(if (env.getUsers token p.page).users.length > 0 then
          [Effect.upsert ((env.getUsers token p.page).users.map formatElbaUser)]
        else []) ++
        [Effect.sendEvt ("monday/users.page_sync.requested")
          { p with page := (env.getUsers token p.page).nextPage }], ?_, ?_⟩
      · rw [syncUsers_of_token env p token htok]
        simp [hnp]
      · by_cases hus : (env.getUsers token p.page).users = [] <;>
          simp [hus, List.length_pos]
  | false =>
      refine ⟨(if (env.getUsers token p.page).users.length > 0 then
          [Effect.upsert ((env.getUsers token p.page).users.map formatElbaUser)]
        else []) ++
        [Effect.deleteSyncedBefore p.syncStartedAt], ?_, ?_⟩
      · rw [syncUsers_of_token env p token htok]
        simp [hnp]
      · by_cases hus : (env.getUsers token p.page).users = [] <;>
          simp [hus, List.length_pos]

/-- Witness for C7 at a concrete one-record page with no next cursor. -/
theorem syncUsers_upsert_iff_nonempty_witness :
    ∃ effs,
      syncUsers ⟨fun _ => some ("tok"), fun _ _ => ⟨[⟨"u1", "Nina", "n@x.io"⟩], none⟩⟩
        ⟨"org1", "eu", false, 5, none⟩ =
        .ok (effs,
          if cursorTruthy (FetchResult.mk [⟨"u1", "Nina", "n@x.io"⟩] none).nextPage
          then ("ongoing") else ("completed")) ∧
      upsertBatches effs =
        (if (FetchResult.mk [⟨"u1", "Nina", "n@x.io"⟩] none).users = [] then []
         else [(FetchResult.mk [⟨"u1", "Nina", "n@x.io"⟩] none).users.map formatElbaUser]) :=
  syncUsers_upsert_iff_nonempty _ _ ("tok") rfl

/-- C8: a single page step is a deterministic function of its payload and
its collaborators' responses: two invocations on the same payload, whose
credential stores agree at the payload's organisation id and whose
fetchers agree at the payload's page cursor, produce identical results,
and in particular identical upsert batches. -/
theorem syncUsers_deterministic (env1 env2 : SyncEnv) (p : SyncPayload)
    (htok : env1.organisationToken p.organisationId =
      env2.organisationToken p.organisationId)
    (hfetch : ∀ token, env1.getUsers token p.page = env2.getUsers token p.page) :
    syncUsers env1 p = syncUsers env2 p ∧
    ∀ effs1 st1 effs2 st2,
      syncUsers env1 p = .ok (effs1, st1) → syncUsers env2 p = .ok (effs2, st2) →
      upsertBatches effs1 = upsertBatches effs2 := by
  have hmain : syncUsers env1 p = syncUsers env2 p := by
    cases h : env2.organisationToken p.organisationId with
    | none =>
        have h1 : env1.organisationToken p.organisationId = none := by rw [htok, h]
        unfold syncUsers
        rw [h1, h]
    | some token =>
        have h1 : env1.organisationToken p.organisationId = some token := by
          rw [htok, h]
        rw [syncUsers_of_token env1 p token h1, syncUsers_of_token env2 p token h,
          hfetch token]
  refine ⟨hmain, ?_⟩
  intro effs1 st1 effs2 st2 h1 h2
  rw [hmain, h2] at h1
  simp only [Except.ok.injEq, Prod.mk.injEq] at h1
  rw [h1.1]

/-- Witness for C8: two syntactically different environments with equal
responses yield the same result. -/
theorem syncUsers_deterministic_witness :
    syncUsers ⟨fun _ => some ("tok"), fun _ _ => ⟨[⟨"u1", "Nina", "n@x.io"⟩], none⟩⟩
        ⟨"org1", "eu", false, 5, none⟩ =
      syncUsers ⟨fun _ => some ("tok"), fun _tok _ => ⟨[⟨"u1", "Nina", "n@x.io"⟩], none⟩⟩
        ⟨"org1", "eu", false, 5, none⟩ :=
  (syncUsers_deterministic _ _ _ rfl (fun _ => rfl)).1

/-! ### Claim C1: a whole logical sync over N pages -/

/-- Helper: one worker invocation against the finite-pages collaborators,
at any page index: fetches the indexed page, upserts it when non-empty,
and either continues with the successor cursor or finalizes. -/
theorem syncUsers_pagesEnv (token : String) (pages : List (List MondayUser))
    (p : SyncPayload) :
    syncUsers (pagesEnv token pages) p =
      (if pageIndex p.page + 1 < pages.length then
        .ok ((if (pages.getD (pageIndex p.page) []).length > 0 then
            [.upsert ((pages.getD (pageIndex p.page) []).map formatElbaUser)]
          else []) ++
          [.sendEvt ("monday/users.page_sync.requested")
            { p with page := some ((pageIndex p.page : Int) + 1) }], "ongoing")
      else
        .ok ((if (pages.getD (pageIndex p.page) []).length > 0 then
            [.upsert ((pages.getD (pageIndex p.page) []).map formatElbaUser)]
          else []) ++
          [.deleteSyncedBefore p.syncStartedAt], "completed")) := by
  rw [syncUsers_of_token (pagesEnv token pages) p token rfl]
  by_cases hlt : pageIndex p.page + 1 < pages.length
  · have hne : ((pageIndex p.page : Int) + 1) ≠ 0 := by omega
    have hct : cursorTruthy (some ((pageIndex p.page : Int) + 1)) = true := by
      simp [cursorTruthy, hne]
    simp [pagesEnv, pagesFetch, hlt, hct]
  · simp [pagesEnv, pagesFetch, hlt, cursorTruthy]

/-- Helper: driving `runSync` against the finite-pages collaborators from
any page index with enough fuel reaches "completed", upserting exactly the
non-empty remaining pages in order and deleting exactly once with the
payload's `syncStartedAt` watermark. -/
theorem runSync_pagesEnv_completes (token : String) (pages : List (List MondayUser)) :
    ∀ (k fuel : Nat) (p : SyncPayload),
      pageIndex p.page + k + 1 = pages.length → k ≤ fuel →
      ∃ effs, runSync (pagesEnv token pages) fuel p = .ok (effs, "completed") ∧
        upsertBatches effs =
          ((pages.drop (pageIndex p.page)).filter (fun us => !us.isEmpty)).map
            (fun us => us.map formatElbaUser) ∧
        deleteWatermarks effs = [p.syncStartedAt] := by
  intro k
  induction k with
  | zero =>
      intro fuel p hlen _
      have hi : pageIndex p.page < pages.length := by omega
      have hnlt : ¬ (pageIndex p.page + 1 < pages.length) := by omega
      have hget : pages.getD (pageIndex p.page) [] = pages[pageIndex p.page] := by
        simp [List.getD_eq_getElem?_getD, List.getElem?_eq_getElem hi]
      have hdrop : pages.drop (pageIndex p.page) = [pages.getD (pageIndex p.page) []] := by
        rw [List.drop_eq_getElem_cons hi,
          List.drop_eq_nil_of_le (show pages.length ≤ pageIndex p.page + 1 by omega), hget]
      have hstep := syncUsers_pagesEnv token pages p
      rw [if_neg hnlt] at hstep
      obtain ⟨X, hX⟩ : ∃ X, X = pages.getD (pageIndex p.page) [] := ⟨_, rfl⟩
      rw [← hX] at hstep hdrop
      refine ⟨(if X.length > 0 then [Effect.upsert (X.map formatElbaUser)] else []) ++
        [Effect.deleteSyncedBefore p.syncStartedAt], ?_, ?_, ?_⟩
      · cases fuel with
        | zero => simp only [runSync]; exact hstep
        | succ f =>
            simp only [runSync, hstep]
            cases X with
            | nil => simp
            | cons a as => simp
      · rw [hdrop]
        cases X with
        | nil => simp
        | cons a as => simp [List.filter_cons]
      · cases X with
        | nil => simp
        | cons a as => simp
  | succ k ih =>
      intro fuel p hlen hfuel
      have hi : pageIndex p.page < pages.length := by omega
      have hlt : pageIndex p.page + 1 < pages.length := by omega
      have hget : pages.getD (pageIndex p.page) [] = pages[pageIndex p.page] := by
        simp [List.getD_eq_getElem?_getD, List.getElem?_eq_getElem hi]
      have hdropi : pages.drop (pageIndex p.page) =
          pages.getD (pageIndex p.page) [] :: pages.drop (pageIndex p.page + 1) := by
        rw [List.drop_eq_getElem_cons hi, hget]
      have hstep := syncUsers_pagesEnv token pages p
      rw [if_pos hlt] at hstep
      cases fuel with
      | zero => exact absurd hfuel (by omega)
      | succ f =>
          have hp2idx :
              pageIndex (SyncPayload.page
                { p with page := some ((pageIndex p.page : Int) + 1) }) =
                pageIndex p.page + 1 := by
            show pageIndex (some ((pageIndex p.page : Int) + 1)) = pageIndex p.page + 1
            simp only [pageIndex]
            omega
          obtain ⟨effs2, hrun2, hup2, hdel2⟩ :=
            ih f { p with page := some ((pageIndex p.page : Int) + 1) }
              (by rw [hp2idx]; omega) (by omega)
          rw [hp2idx] at hup2
          have hdel2s : deleteWatermarks effs2 = [p.syncStartedAt] := hdel2
          obtain ⟨X, hX⟩ : ∃ X, X = pages.getD (pageIndex p.page) [] := ⟨_, rfl⟩
          rw [← hX] at hstep hdropi
          refine ⟨((if X.length > 0 then [Effect.upsert (X.map formatElbaUser)] else []) ++
            [Effect.sendEvt ("monday/users.page_sync.requested")
              { p with page := some ((pageIndex p.page : Int) + 1) }]) ++ effs2,
            ?_, ?_, ?_⟩
          · simp only [runSync, hstep]
            cases X with
            | nil => simp [hrun2]
            | cons a as => simp [hrun2]
          · rw [hdropi, List.filter_cons]
            cases X with
            | nil => simp [hup2]
            | cons a as => simp [hup2]
          · cases X with
            | nil => simp [hdel2s]
            | cons a as => simp [hdel2s]

/-- C1: against a remote with a finite list of pages, one logical sync
starting at the first page reaches status "completed" having performed
exactly one upsert per non-empty page (the batches are exactly the
normalized non-empty pages, in order — N batches when all N pages are
non-empty) and exactly one delete, whose `syncedBefore` watermark is the
sync's `syncStartedAt`; moreover no invocation that reports "ongoing"
(i.e. that still has a next page) performs any delete call. -/
theorem syncUsers_full_sync (token : String) (pages : List (List MondayUser))
    (hne : pages ≠ []) (p : SyncPayload) (hpage : p.page = none) :
    (∃ effs,
      runSync (pagesEnv token pages) pages.length p = .ok (effs, "completed") ∧
      upsertBatches effs =
        (pages.filter (fun us => !us.isEmpty)).map (fun us => us.map formatElbaUser) ∧
      deleteWatermarks effs = [p.syncStartedAt]) ∧
    ∀ (env : SyncEnv) (q : SyncPayload) (effs : List Effect),
      syncUsers env q = .ok (effs, "ongoing") → deleteWatermarks effs = [] := by
  constructor
  · have hlen : pages.length ≠ 0 := by simpa using hne
    have h0 : pageIndex p.page = 0 := by rw [hpage]; rfl
    obtain ⟨effs, hrun, hup, hdel⟩ :=
      runSync_pagesEnv_completes token pages (pages.length - 1) pages.length p
        (by omega) (by omega)
    refine ⟨effs, hrun, ?_, hdel⟩
    rw [hup, h0, List.drop_zero]
  · intro env q effs h
    cases htok : env.organisationToken q.organisationId with
    | none =>
        unfold syncUsers at h
        rw [htok] at h
        exact Except.noConfusion h
    | some token =>
        rw [syncUsers_of_token env q token htok] at h
        by_cases hc : cursorTruthy (env.getUsers token q.page).nextPage = true
        · rw [if_pos hc] at h
          simp only [Except.ok.injEq, Prod.mk.injEq] at h
          rw [← h.1]
          by_cases hx : (env.getUsers token q.page).users.length > 0 <;> simp [hx]
        · rw [if_neg hc] at h
          simp only [Except.ok.injEq, Prod.mk.injEq] at h
          exact absurd h.2 (by decide)

/-- Witness for C1 over two pages, the second one empty: one upsert, one
delete at watermark 5, status "completed". -/
theorem syncUsers_full_sync_witness :
    ∃ effs,
      runSync (pagesEnv ("tok") [[⟨"u1", "Nina", "n@x.io"⟩], []]) 2
        ⟨"org1", "eu", false, 5, none⟩ = .ok (effs, "completed") ∧
      upsertBatches effs =
        (([[⟨"u1", "Nina", "n@x.io"⟩], []] : List (List MondayUser)).filter
          (fun us => !us.isEmpty)).map (fun us => us.map formatElbaUser) ∧
      deleteWatermarks effs = [5] :=
  (syncUsers_full_sync ("tok") [[⟨"u1", "Nina", "n@x.io"⟩], []] (by decide)
    ⟨"org1", "eu", false, 5, none⟩ rfl).1

/-! ### Claims C3/C4: the failure classifier -/

/-- C3: when the classifier sees an authorization-rejection error
(HTTP 401-equivalent), it performs exactly one connection-status update
with `hasError = true` and exactly one removal of the organisation
record, and replaces the error by a terminal non-retriable error whose
cause is the original error, leaving the result's other fields (here:
`data`) unchanged. The classifier is modelled from the spec, its
implementation being absent from the sources. -/
theorem transformOutput_unauthorized (organisationId : String) (result : MwResult)
    (w : WorkerError)
    (herr : result.error = some (.fromWorker w))
    (hauth : isUnauthorizedError w = true) :
    (transformOutput organisationId result).1.data = result.data ∧
    (transformOutput organisationId result).1.error =
      some (.nonRetriable unauthorizedMessage w) ∧
    (transformOutput organisationId result).2 =
      [.connectionStatusUpdate true, .removeOrganisation organisationId] := by
  simp [transformOutput, herr, hauth]

/-- Witness for C3 at the test's 401 error and organisation id. -/
theorem transformOutput_unauthorized_witness :
    (transformOutput ("45a76301-f1dd-4a77-b12f-9d7d3fca3c90")
        ⟨"bizz", some (.fromWorker (.http 401 ("foo bar")))⟩).1.data = "bizz" ∧
    (transformOutput ("45a76301-f1dd-4a77-b12f-9d7d3fca3c90")
        ⟨"bizz", some (.fromWorker (.http 401 ("foo bar")))⟩).1.error =
      some (.nonRetriable unauthorizedMessage (.http 401 ("foo bar"))) ∧
    (transformOutput ("45a76301-f1dd-4a77-b12f-9d7d3fca3c90")
        ⟨"bizz", some (.fromWorker (.http 401 ("foo bar")))⟩).2 =
      [.connectionStatusUpdate true,
       .removeOrganisation ("45a76301-f1dd-4a77-b12f-9d7d3fca3c90")] :=
  transformOutput_unauthorized _ _ _ rfl rfl

/-- C4: when the carried error is absent, or present but not an
authorization rejection, the classifier passes the result through
unmodified and performs no side effects at all. -/
theorem transformOutput_passthrough (organisationId : String) (result : MwResult)
    (h : errUnauthorized result.error = false) :
    transformOutput organisationId result = (result, []) := by
  unfold transformOutput
  cases hres : result.error with
  | none => rfl
  | some e =>
      cases e with
      | fromWorker w =>
          rw [hres] at h
          have hw : isUnauthorizedError w = false := by
            simpa [errUnauthorized] using h
          simp [hw]
      | nonRetriable m c => rfl

/-- Witness for C4 at a non-authorization error (the test's plain
`Error`). -/
theorem transformOutput_passthrough_witness :
    transformOutput ("org1") ⟨"bizz", some (.fromWorker (.other ("foo bar")))⟩ =
      (⟨"bizz", some (.fromWorker (.other ("foo bar")))⟩, []) :=
  transformOutput_passthrough _ _ rfl

/-! ### Claim C5: the scheduler -/

/-- Helper: the scheduler's event list for a non-empty organisation
list. -/
theorem scheduleUserSync_fst (a : String) (rest : List String) (now : Int) :
    (scheduleUserSync (a :: rest) now).1 =
      (a :: rest).map (fun organisationId =>
        ({ name := "dropbox/users.sync_page.triggered"
           organisationId := organisationId
           isFirstSync := false
           syncStartedAt := now
           page := none } : ScheduleEvt)) := by
  simp [scheduleUserSync]

/-- Helper: reading the organisation ids back from the scheduler's event
list gives the organisation list. -/
theorem scheduleEvt_map_organisationId (l : List String) (now : Int) :
    (l.map (fun organisationId =>
      ({ name := "dropbox/users.sync_page.triggered"
         organisationId := organisationId
         isFirstSync := false
         syncStartedAt := now
         page := none } : ScheduleEvt))).map (fun e => e.organisationId) = l := by
  induction l with
  | nil => rfl
  | cons x xs ih => simp only [List.map_cons, ih]

/-- C5: each scheduler run returns the eligible organisations as its
report and emits exactly one event per eligible organisation — in
particular nothing when the eligible set is empty — and every emitted
event has no page cursor (the first page), `isFirstSync = false` and the
single shared `syncStartedAt` of this run. -/
theorem scheduleUserSync_correct (organisations : List String) (now : Int) :
    (scheduleUserSync organisations now).2 = organisations ∧
    ((scheduleUserSync organisations now).1).map (fun e => e.organisationId) =
      organisations ∧
    (organisations = [] → (scheduleUserSync organisations now).1 = []) ∧
    ∀ e ∈ (scheduleUserSync organisations now).1,
      e.page = none ∧ e.isFirstSync = false ∧ e.syncStartedAt = now := by
  refine ⟨rfl, ?_, ?_, ?_⟩
  · cases organisations with
    | nil => rfl
    | cons a rest =>
        rw [scheduleUserSync_fst]
        exact scheduleEvt_map_organisationId (a :: rest) now
  · intro h
    rw [h]
    rfl
  · intro e he
    cases organisations with
    | nil => exact absurd he (List.not_mem_nil e)
    | cons a rest =>
        rw [scheduleUserSync_fst] at he
        obtain ⟨oid, _, heq⟩ := List.mem_map.mp he
        rw [← heq]
        exact ⟨rfl, rfl, rfl⟩

/-- Witness for C5 at a two-organisation batch. -/
theorem scheduleUserSync_correct_witness :
    ((scheduleUserSync ["org-a", "org-b"] 42).1).map (fun e => e.organisationId) =
      ["org-a", "org-b"] :=
  (scheduleUserSync_correct ["org-a", "org-b"] 42).2.1

/-! ### Claim C9: per-organisation mutual exclusion -/

/-- C9: the worker's configuration bounds concurrency to 1 keyed on the
event's organisation id, and under that keyed bound — enforced by the
dispatch layer — no two invocations for the same organisation id are ever
simultaneously active, while a trace whose invocations all carry distinct
organisation ids is never constrained (distinct organisations may run in
parallel). -/
theorem syncUsers_per_org_mutual_exclusion :
    syncUsersConfig.concurrencyLimit = 1 ∧
    syncUsersConfig.concurrencyKey = "event.data.organisationId" ∧
    (∀ (invs : List Invocation),
      respectsKeyedLimit syncUsersConfig.concurrencyLimit invs →
      ∀ (i j : Fin invs.length), i ≠ j →
        (invs.get i).organisationId = (invs.get j).organisationId →
        ∀ (t : Nat), ¬ ((invs.get i).activeAt t ∧ (invs.get j).activeAt t)) ∧
    (∀ (invs : List Invocation),
      (∀ (i j : Fin invs.length), i ≠ j →
        (invs.get i).organisationId ≠ (invs.get j).organisationId) →
      respectsKeyedLimit syncUsersConfig.concurrencyLimit invs) := by
  refine ⟨rfl, rfl, ?_, ?_⟩
  · rintro invs hresp i j hij horg t ⟨hi, hj⟩
    have hcard : (Finset.univ.filter (fun x : Fin invs.length =>
        (invs.get x).organisationId = (invs.get i).organisationId ∧
          (invs.get x).activeAt t)).card ≤ 1 :=
      hresp t ((invs.get i).organisationId)
    have hmem_i : i ∈ Finset.univ.filter (fun x : Fin invs.length =>
        (invs.get x).organisationId = (invs.get i).organisationId ∧
          (invs.get x).activeAt t) :=
      Finset.mem_filter.mpr ⟨Finset.mem_univ _, rfl, hi⟩
    have hmem_j : j ∈ Finset.univ.filter (fun x : Fin invs.length =>
        (invs.get x).organisationId = (invs.get i).organisationId ∧
          (invs.get x).activeAt t) :=
      Finset.mem_filter.mpr ⟨Finset.mem_univ _, horg.symm, hj⟩
    exact hij (Finset.card_le_one.mp hcard i hmem_i j hmem_j)
  · intro invs hdist t oid
    show (Finset.univ.filter (fun x : Fin invs.length =>
        (invs.get x).organisationId = oid ∧ (invs.get x).activeAt t)).card ≤ 1
    refine Finset.card_le_one.mpr ?_
    intro a ha b hb
    by_contra hab
    obtain ⟨_, ha1, _⟩ := Finset.mem_filter.mp ha
    obtain ⟨_, hb1, _⟩ := Finset.mem_filter.mp hb
    exact hdist a b hab (ha1.trans hb1.symm)

/-- Witness for C9: two overlapping invocations for distinct
organisations respect the configured bound. -/
theorem syncUsers_per_org_mutual_exclusion_witness :
    respectsKeyedLimit syncUsersConfig.concurrencyLimit
      [⟨"org-a", 0, 2⟩, ⟨"org-b", 0, 2⟩] :=
  syncUsers_per_org_mutual_exclusion.2.2.2 _ (by decide)
